import Mathlib

/-!
Verification of the `catalyst` callback module (`src/dl/callback.py`).

The module defines:
* `Callback` — the Observer base with ten no-op lifecycle hooks;
* `CallbackCompose` — the Dispatcher fanning every hook out to a named,
  ordered collection of observers;
* `MetricCallback` / `MultiMetricCallback` — observers that compute metrics
  on `on_batch_end` and record them in `state.batch_metrics`.

Python dictionaries are embedded as insertion-ordered association lists,
mutation as explicit state passing, and exceptions as an `Except`-style flag
returned next to the (possibly partially mutated) state, so that an error
leaves visible exactly the writes committed before it.
-/

set_option autoImplicit false

namespace Catalyst

universe u

/-- Error taxonomy (spec §7): a required key absent from a `RunState` mapping
(`KeyError` in Python), or a metric value the extraction step cannot reduce
to a scalar. -/
inductive Err where
  | keyMissing
  | unsupportedMetricType
  deriving DecidableEq, Repr

/-- A Python `dict` with string keys: an association list in insertion order.
Real Python dicts never hold a key twice; lists whose keys are `Nodup` are the
well-formed images. -/
abbrev Dict (α : Type u) : Type u := List (String × α)

/-- `d[k]` — first (and in a well-formed dict, only) entry whose key is `k`;
a missing key raises `KeyError`, embedded as `Err.keyMissing`. -/
def dictLookup {α : Type u} (d : Dict α) (k : String) : Except Err α :=
  match d.find? (fun p => p.1 == k) with
  | some p => Except.ok p.2
  | none => Except.error Err.keyMissing

/-- `d[k] = v` — overwrite in place when the key is present (the key keeps its
original position, as in CPython), append otherwise. -/
def dictInsert {α : Type u} (d : Dict α) (k : String) (v : α) : Dict α :=
  if d.any (fun p => p.1 == k) then
    d.map (fun p => if p.1 == k then (k, v) else p)
  else
    d ++ [(k, v)]

/-- The keys of a dict, in order. -/
def dictKeys {α : Type u} (d : Dict α) : List String :=
  d.map Prod.fst

/-- Run a list of `d[k] = v` assignments left to right. -/
def assignAll {α : Type u} (d : Dict α) (ps : List (String × α)) : Dict α :=
  ps.foldl (fun b p => dictInsert b p.1 p.2) d

/-- The value a metric function hands back, as the value-extraction utility
sees it: a bare scalar, a single-element boxed/tensor-like container holding a
scalar, or anything else. -/
inductive MetricValue (α : Type u) where
  | scalar (v : α)
  | boxed (v : α)
  | unsupported
  deriving DecidableEq, Repr

namespace UtilsFactory

/-- Modelled from the spec: `UtilsFactory.get_val_from_metric` lives in
`catalyst/utils/factory.py`, which is not among the sources at hand. Per the
spec's collaborator contract (§6), it reduces a metric function's return value
to a plain scalar, accepting both a bare numeric value and a single-element
boxed/container numeric value, and rejecting anything else with
`UnsupportedMetricType`. -/
def get_val_from_metric {α : Type u} : MetricValue α → Except Err α
  | MetricValue.scalar v => Except.ok v
  | MetricValue.boxed v => Except.ok v
  | MetricValue.unsupported => Except.error Err.unsupportedMetricType

end UtilsFactory

/-- The shared mutable context: per-batch inputs, model outputs, and the
computed batch metrics. -/
structure RunState (α : Type u) where
  input : Dict α
  output : Dict α
  batch_metrics : Dict α
  deriving DecidableEq, Repr

/-- A hook invocation either returns normally or signals an error; either way
the state as mutated so far is visible to the caller. -/
abbrev HookResult (α : Type u) : Type u := Except Err Unit × RunState α

namespace Callback

/-- `Callback.on_train_start` — `pass`. -/
def on_train_start {α : Type u} (state : RunState α) : HookResult α :=
  (Except.ok (), state)

/-- `Callback.on_train_end` — `pass`. -/
def on_train_end {α : Type u} (state : RunState α) : HookResult α :=
  (Except.ok (), state)

/-- `Callback.on_infer_start` — `pass`. -/
def on_infer_start {α : Type u} (state : RunState α) : HookResult α :=
  (Except.ok (), state)

/-- `Callback.on_infer_end` — `pass`. -/
def on_infer_end {α : Type u} (state : RunState α) : HookResult α :=
  (Except.ok (), state)

/-- `Callback.on_epoch_start` — `pass`. -/
def on_epoch_start {α : Type u} (state : RunState α) : HookResult α :=
  (Except.ok (), state)

/-- `Callback.on_epoch_end` — `pass`. -/
def on_epoch_end {α : Type u} (state : RunState α) : HookResult α :=
  (Except.ok (), state)

/-- `Callback.on_loader_start` — `pass`. -/
def on_loader_start {α : Type u} (state : RunState α) : HookResult α :=
  (Except.ok (), state)

/-- `Callback.on_loader_end` — `pass`. -/
def on_loader_end {α : Type u} (state : RunState α) : HookResult α :=
  (Except.ok (), state)

/-- `Callback.on_batch_start` — `pass`. -/
def on_batch_start {α : Type u} (state : RunState α) : HookResult α :=
  (Except.ok (), state)

/-- `Callback.on_batch_end` — `pass`. -/
def on_batch_end {α : Type u} (state : RunState α) : HookResult α :=
  (Except.ok (), state)

end Callback

/-- An observer as the dispatcher sees it: one procedure per lifecycle hook.
Subclasses of `Callback` override individual hooks, so an arbitrary observer
is just a record of ten hook bodies. -/
structure CallbackHooks (α : Type u) where
  on_train_start : RunState α → HookResult α
  on_train_end : RunState α → HookResult α
  on_infer_start : RunState α → HookResult α
  on_infer_end : RunState α → HookResult α
  on_epoch_start : RunState α → HookResult α
  on_epoch_end : RunState α → HookResult α
  on_loader_start : RunState α → HookResult α
  on_loader_end : RunState α → HookResult α
  on_batch_start : RunState α → HookResult α
  on_batch_end : RunState α → HookResult α

/-- The base `Callback` observer: every hook inherited, i.e. a no-op. -/
def Callback.base {α : Type u} : CallbackHooks α where
  on_train_start := Callback.on_train_start
  on_train_end := Callback.on_train_end
  on_infer_start := Callback.on_infer_start
  on_infer_end := Callback.on_infer_end
  on_epoch_start := Callback.on_epoch_start
  on_epoch_end := Callback.on_epoch_end
  on_loader_start := Callback.on_loader_start
  on_loader_end := Callback.on_loader_end
  on_batch_start := Callback.on_batch_start
  on_batch_end := Callback.on_batch_end

/-- The ten lifecycle hook points. -/
inductive Hook where
  | train_start
  | train_end
  | infer_start
  | infer_end
  | epoch_start
  | epoch_end
  | loader_start
  | loader_end
  | batch_start
  | batch_end
  deriving DecidableEq, Repr

/-- Select an observer's body for a given hook point. -/
def CallbackHooks.run {α : Type u} (o : CallbackHooks α) : Hook → RunState α → HookResult α
  | Hook.train_start => o.on_train_start
  | Hook.train_end => o.on_train_end
  | Hook.infer_start => o.on_infer_start
  | Hook.infer_end => o.on_infer_end
  | Hook.epoch_start => o.on_epoch_start
  | Hook.epoch_end => o.on_epoch_end
  | Hook.loader_start => o.on_loader_start
  | Hook.loader_end => o.on_loader_end
  | Hook.batch_start => o.on_batch_start
  | Hook.batch_end => o.on_batch_end

/-- The `for key, value in self.callbacks.items(): value.hook(state=state)`
loop shared (textually) by all ten `CallbackCompose` methods: run each
observer's hook in insertion order on the state left by its predecessors; an
exception propagates at once, skipping the remaining observers. -/
def dispatchList {α : Type u} (f : CallbackHooks α → RunState α → HookResult α) :
    List (String × CallbackHooks α) → RunState α → HookResult α
  | [], s => (Except.ok (), s)
  | kv :: rest, s =>
    match f kv.2 s with
    | (Except.ok _, s1) => dispatchList f rest s1
    | (Except.error e, s1) => (Except.error e, s1)

/-- `CallbackCompose`: the dispatcher holding the named, ordered collection of
observers (`Dict[str, Callback]`, iterated in insertion order). -/
structure CallbackCompose (α : Type u) where
  callbacks : List (String × CallbackHooks α)

namespace CallbackCompose

/-- `CallbackCompose.on_train_start`. -/
def on_train_start {α : Type u} (c : CallbackCompose α) (state : RunState α) : HookResult α :=
  dispatchList (fun o => o.on_train_start) c.callbacks state

/-- `CallbackCompose.on_train_end`. -/
def on_train_end {α : Type u} (c : CallbackCompose α) (state : RunState α) : HookResult α :=
  dispatchList (fun o => o.on_train_end) c.callbacks state

/-- `CallbackCompose.on_infer_start`. -/
def on_infer_start {α : Type u} (c : CallbackCompose α) (state : RunState α) : HookResult α :=
  dispatchList (fun o => o.on_infer_start) c.callbacks state

/-- `CallbackCompose.on_infer_end`. -/
def on_infer_end {α : Type u} (c : CallbackCompose α) (state : RunState α) : HookResult α :=
  dispatchList (fun o => o.on_infer_end) c.callbacks state

/-- `CallbackCompose.on_epoch_start`. -/
def on_epoch_start {α : Type u} (c : CallbackCompose α) (state : RunState α) : HookResult α :=
  dispatchList (fun o => o.on_epoch_start) c.callbacks state

/-- `CallbackCompose.on_epoch_end`. -/
def on_epoch_end {α : Type u} (c : CallbackCompose α) (state : RunState α) : HookResult α :=
  dispatchList (fun o => o.on_epoch_end) c.callbacks state

/-- `CallbackCompose.on_loader_start`. -/
def on_loader_start {α : Type u} (c : CallbackCompose α) (state : RunState α) : HookResult α :=
  dispatchList (fun o => o.on_loader_start) c.callbacks state

/-- `CallbackCompose.on_loader_end`. -/
def on_loader_end {α : Type u} (c : CallbackCompose α) (state : RunState α) : HookResult α :=
  dispatchList (fun o => o.on_loader_end) c.callbacks state

/-- `CallbackCompose.on_batch_start`. -/
def on_batch_start {α : Type u} (c : CallbackCompose α) (state : RunState α) : HookResult α :=
  dispatchList (fun o => o.on_batch_start) c.callbacks state

/-- `CallbackCompose.on_batch_end`. -/
def on_batch_end {α : Type u} (c : CallbackCompose α) (state : RunState α) : HookResult α :=
  dispatchList (fun o => o.on_batch_end) c.callbacks state

/-- Dispatch a given hook point through the corresponding method. -/
def run {α : Type u} (c : CallbackCompose α) : Hook → RunState α → HookResult α
  | Hook.train_start => c.on_train_start
  | Hook.train_end => c.on_train_end
  | Hook.infer_start => c.on_infer_start
  | Hook.infer_end => c.on_infer_end
  | Hook.epoch_start => c.on_epoch_start
  | Hook.epoch_end => c.on_epoch_end
  | Hook.loader_start => c.on_loader_start
  | Hook.loader_end => c.on_loader_end
  | Hook.batch_start => c.on_batch_start
  | Hook.batch_end => c.on_batch_end

end CallbackCompose

/-- `MetricCallback`: configuration set at construction. `prefix` is a Lean
keyword, so the field is named `pfx`. The `**metric_params` keyword arguments
are an insertion-ordered mapping forwarded verbatim to the metric function. -/
structure MetricCallback (α : Type u) where
  pfx : String
  metric_fn : α → α → Dict α → MetricValue α
  input_key : String := "targets"
  output_key : String := "logits"
  metric_params : Dict α := []

/-- `MetricCallback.on_batch_end`: read `outputs = state.output[output_key]`
and `targets = state.input[input_key]` (in that order, as the source does),
compute the metric, extract its scalar value, and write it under `prefix`. -/
def MetricCallback.on_batch_end {α : Type u} (c : MetricCallback α) (state : RunState α) :
    HookResult α :=
  match dictLookup state.output c.output_key with
  | Except.error e => (Except.error e, state)
  | Except.ok outputs =>
    match dictLookup state.input c.input_key with
    | Except.error e => (Except.error e, state)
    | Except.ok targets =>
      match UtilsFactory.get_val_from_metric (c.metric_fn targets outputs c.metric_params) with
      | Except.error e => (Except.error e, state)
      | Except.ok v =>
        (Except.ok (),
          { state with batch_metrics := dictInsert state.batch_metrics c.pfx v })

/-- `MultiMetricCallback`: configuration set at construction; `list_args` is
the ordered list of argument labels. -/
structure MultiMetricCallback (α : Type u) where
  pfx : String
  metric_fn : α → α → List String → Dict α → List (MetricValue α)
  list_args : List String
  input_key : String := "targets"
  output_key : String := "logits"
  metric_params : Dict α := []

/-- The `for arg, metric in zip(self.list_args, metrics):` loop of
`MultiMetricCallback.on_batch_end`: write each extracted value under the
composed key `f"\x7bprefix\x7d_\x7barg\x7d"`; a failing extraction propagates,
leaving the writes already committed. -/
def writeMetrics {α : Type u} (pfx : String) :
    List (String × MetricValue α) → RunState α → HookResult α
  | [], s => (Except.ok (), s)
  | (arg, m) :: rest, s =>
    match UtilsFactory.get_val_from_metric m with
    | Except.error e => (Except.error e, s)
    | Except.ok v =>
      writeMetrics pfx rest
        { s with batch_metrics := dictInsert s.batch_metrics (pfx ++ "_" ++ arg) v }

/-- `MultiMetricCallback.on_batch_end`: read `outputs`/`targets` as in
`MetricCallback`, call the metric function with `list_args`, then pair labels
with results positionally via `zip` (which silently truncates to the shorter
of the two sequences) and write each pair. -/
def MultiMetricCallback.on_batch_end {α : Type u} (c : MultiMetricCallback α)
    (state : RunState α) : HookResult α :=
  match dictLookup state.output c.output_key with
  | Except.error e => (Except.error e, state)
  | Except.ok outputs =>
    match dictLookup state.input c.input_key with
    | Except.error e => (Except.error e, state)
    | Except.ok targets =>
      writeMetrics c.pfx
        (c.list_args.zip (c.metric_fn targets outputs c.list_args c.metric_params)) state

/-! ### Concrete fixtures for the spec's scenarios -/

/-- A constant metric function returning the bare scalar `3/4`, the spec's
`metricFn = always returns 0.75`. -/
def constAccMetric : ℚ → ℚ → Dict ℚ → MetricValue ℚ :=
  fun _ _ _ => MetricValue.scalar (3 / 4)

/-- The `prefix = "acc"` MetricObserver of the spec's scenario. -/
def accCallback : MetricCallback ℚ :=
  { pfx := "acc", metric_fn := constAccMetric, input_key := "targets",
    output_key := "logits", metric_params := [] }

/-- A run state whose `batch_metrics` already binds `"acc"`, so the overwrite
is observable. -/
def accState : RunState ℚ :=
  { input := [("targets", 1)], output := [("logits", 2)],
    batch_metrics := [("acc", 0)] }

/-- A run state with empty `input` and `output` mappings. -/
def emptyState : RunState ℚ :=
  { input := [], output := [], batch_metrics := [("acc", 0)] }

/-- The `prefix = "p"`, `listArgs = ["a", "b"]` MultiMetricObserver of the
spec's scenario, whose metric function returns `[1, 2]`. -/
def pabCallback : MultiMetricCallback ℚ :=
  { pfx := "p", metric_fn := fun _ _ _ _ => [MetricValue.scalar 1, MetricValue.scalar 2],
    list_args := ["a", "b"], input_key := "targets", output_key := "logits",
    metric_params := [] }

/-- The duplicate-label MultiMetricObserver: `listArgs = ["a", "a"]`, metric
function returning `[1, 2]`. -/
def dupCallback : MultiMetricCallback ℚ :=
  { pfx := "p", metric_fn := fun _ _ _ _ => [MetricValue.scalar 1, MetricValue.scalar 2],
    list_args := ["a", "a"], input_key := "targets", output_key := "logits",
    metric_params := [] }

/-- A MultiMetricObserver whose metric function returns one result for two
labels — the length-mismatch scenario. -/
def shortCallback : MultiMetricCallback ℚ :=
  { pfx := "p", metric_fn := fun _ _ _ _ => [MetricValue.scalar 1],
    list_args := ["a", "b"], input_key := "targets", output_key := "logits",
    metric_params := [] }

/-- A MultiMetricObserver with empty `listArgs`. -/
def emptyArgsCallback : MultiMetricCallback ℚ :=
  { pfx := "p", metric_fn := fun _ _ _ _ => [], list_args := [],
    input_key := "targets", output_key := "logits", metric_params := [] }

/-! ### Dictionary lemmas -/

theorem dictLookup_nil {α : Type u} (k : String) :
    dictLookup ([] : Dict α) k = Except.error Err.keyMissing := rfl

theorem dictLookup_cons {α : Type u} (p : String × α) (d : Dict α) (k : String) :
    dictLookup (p :: d) k = if p.1 = k then Except.ok p.2 else dictLookup d k := by
  by_cases h : p.1 = k <;> simp [dictLookup, List.find?_cons, h]

theorem any_key_iff_mem_dictKeys {α : Type u} (d : Dict α) (k : String) :
    d.any (fun p => p.1 == k) = true ↔ k ∈ dictKeys d := by
  simp [dictKeys, List.any_eq_true, List.mem_map]

theorem dictLookup_of_not_mem {α : Type u} {d : Dict α} {k : String}
    (h : ¬ k ∈ dictKeys d) : dictLookup d k = Except.error Err.keyMissing := by
  have hfind : d.find? (fun p => p.1 == k) = none := by
    rw [List.find?_eq_none]
    intro x hx hbeq
    exact h ((any_key_iff_mem_dictKeys d k).1 (List.any_eq_true.2 ⟨x, hx, hbeq⟩))
  simp [dictLookup, hfind]

theorem dictLookup_dictInsert_self {α : Type u} (d : Dict α) (k : String) (v : α) :
    dictLookup (dictInsert d k v) k = Except.ok v := by
  by_cases hmem : d.any (fun p => p.1 == k) = true
  · rw [dictInsert, if_pos hmem]
    have hcomp : ((fun (p : String × α) => p.1 == k) ∘
        fun p => if p.1 == k then (k, v) else p) = fun p => p.1 == k := by
      funext p
      by_cases hp : (p.1 == k) = true
      · have hp' : p.1 = k := by simpa using hp
        simp [Function.comp, hp', hp]
      · have hp' : ¬ p.1 = k := by simpa using hp
        simp [Function.comp, hp', hp]
    obtain ⟨r, hrfind⟩ : ∃ r, d.find? (fun p => p.1 == k) = some r := by
      obtain ⟨q, hq, hqk⟩ := List.any_eq_true.1 hmem
      rcases hfind : d.find? (fun p => p.1 == k) with _ | r
      · rw [List.find?_eq_none] at hfind
        exact absurd hqk (hfind q hq)
      · exact ⟨r, hfind⟩
    have hr := List.find?_some hrfind
    simp only at hr
    have hr' : r.1 = k := by simpa using hr
    rw [dictLookup, List.find?_map, hcomp, hrfind]
    simp [hr']
  · rw [dictInsert, if_neg hmem]
    have hall : ∀ p ∈ d, ¬ (p.1 == k) = true := by
      intro p hp hb
      exact hmem (List.any_eq_true.2 ⟨p, hp, hb⟩)
    have hfind : d.find? (fun p => p.1 == k) = none := List.find?_eq_none.2 hall
    simp [dictLookup, List.find?_append, hfind]

theorem dictLookup_dictInsert_ne {α : Type u} (d : Dict α) (k k' : String) (v : α)
    (h : ¬ k' = k) :
    dictLookup (dictInsert d k v) k' = dictLookup d k' := by
  have hkk' : ((k : String) == k') = false := by
    simp only [beq_eq_false_iff_ne, ne_eq]
    exact fun he => h he.symm
  by_cases hmem : d.any (fun p => p.1 == k) = true
  · rw [dictInsert, if_pos hmem]
    have hcomp : ((fun (p : String × α) => p.1 == k') ∘
        fun p => if p.1 == k then (k, v) else p) = fun p => p.1 == k' := by
      funext p
      by_cases hp : (p.1 == k) = true
      · have hp' : p.1 = k := by simpa using hp
        simp [Function.comp, hp, hp', hkk']
      · simp [Function.comp, hp]
    rw [dictLookup, List.find?_map, hcomp, dictLookup]
    rcases hfind : d.find? (fun p => p.1 == k') with _ | r
    · rw [hfind]
      rfl
    · rw [hfind]
      have hr := List.find?_some hfind
      simp only at hr
      have hrk : ¬ r.1 = k := by
        have hr' : r.1 = k' := by simpa using hr
        rw [hr']
        exact h
      simp [hrk]
  · rw [dictInsert, if_neg hmem]
    simp only [dictLookup, List.find?_append, List.find?_cons, hkk']
    cases d.find? (fun p => p.1 == k') <;> rfl

theorem dictKeys_dictInsert_of_mem {α : Type u} {d : Dict α} {k : String} (v : α)
    (h : k ∈ dictKeys d) : dictKeys (dictInsert d k v) = dictKeys d := by
  rw [dictInsert, if_pos ((any_key_iff_mem_dictKeys d k).2 h)]
  rw [dictKeys, dictKeys, List.map_map]
  apply List.map_congr_left
  intro p _
  by_cases hp : (p.1 == k) = true
  · have hp' : p.1 = k := by simpa using hp
    simp [Function.comp, hp, hp']
  · simp [Function.comp, hp]

theorem dictKeys_dictInsert_of_not_mem {α : Type u} {d : Dict α} {k : String} (v : α)
    (h : ¬ k ∈ dictKeys d) : dictKeys (dictInsert d k v) = dictKeys d ++ [k] := by
  rw [dictInsert, if_neg (fun ha => h ((any_key_iff_mem_dictKeys d k).1 ha))]
  simp [dictKeys]

theorem mem_dictKeys_dictInsert_self {α : Type u} (d : Dict α) (k : String) (v : α) :
    k ∈ dictKeys (dictInsert d k v) := by
  by_cases h : k ∈ dictKeys d
  · rw [dictKeys_dictInsert_of_mem v h]
    exact h
  · rw [dictKeys_dictInsert_of_not_mem v h]
    simp

theorem mem_dictKeys_dictInsert_of_mem {α : Type u} {d : Dict α} {k' : String}
    (k : String) (v : α) (h : k' ∈ dictKeys d) : k' ∈ dictKeys (dictInsert d k v) := by
  by_cases hm : k ∈ dictKeys d
  · rw [dictKeys_dictInsert_of_mem v hm]
    exact h
  · rw [dictKeys_dictInsert_of_not_mem v hm]
    exact List.mem_append_left _ h

theorem nodup_dictKeys_dictInsert {α : Type u} {d : Dict α} (k : String) (v : α)
    (h : (dictKeys d).Nodup) : (dictKeys (dictInsert d k v)).Nodup := by
  by_cases hm : k ∈ dictKeys d
  · rw [dictKeys_dictInsert_of_mem v hm]
    exact h
  · rw [dictKeys_dictInsert_of_not_mem v hm]
    simp [List.nodup_append, h, hm]

theorem dictInsert_idem {α : Type u} (d : Dict α) (k : String) (v : α) :
    dictInsert (dictInsert d k v) k v = dictInsert d k v := by
  by_cases hmem : d.any (fun p => p.1 == k) = true
  · have hd1 : dictInsert d k v = d.map (fun p => if p.1 == k then (k, v) else p) := by
      rw [dictInsert, if_pos hmem]
    have hmem2 : (d.map (fun p => if p.1 == k then (k, v) else p)).any
        (fun p => p.1 == k) = true := by
      rw [List.any_map]
      obtain ⟨q, hq, hqk⟩ := List.any_eq_true.1 hmem
      refine List.any_eq_true.2 ⟨q, hq, ?_⟩
      have hq' : q.1 = k := by simpa using hqk
      simp [Function.comp, hqk, hq']
    rw [hd1, dictInsert, if_pos hmem2, List.map_map]
    apply List.map_congr_left
    intro p _
    by_cases hp : (p.1 == k) = true
    · have hp' : p.1 = k := by simpa using hp
      simp [Function.comp, hp, hp']
    · have hp' : ¬ p.1 = k := by simpa using hp
      simp [Function.comp, hp, hp']
  · have hd1 : dictInsert d k v = d ++ [(k, v)] := by
      rw [dictInsert, if_neg hmem]
    have hmem2 : (d ++ [(k, v)]).any (fun p => p.1 == k) = true := by
      simp [List.any_append]
    rw [hd1, dictInsert, if_pos hmem2, List.map_append]
    have hall : ∀ p ∈ d, ¬ (p.1 == k) = true := by
      intro p hp hb
      exact hmem (List.any_eq_true.2 ⟨p, hp, hb⟩)
    have h1 : d.map (fun p => if p.1 == k then (k, v) else p) = d.map id := by
      apply List.map_congr_left
      intro p hp
      simp [hall p hp]
    rw [h1, List.map_id]
    simp

theorem assignAll_nil {α : Type u} (d : Dict α) : assignAll d [] = d := rfl

theorem assignAll_cons {α : Type u} (d : Dict α) (p : String × α) (ps : List (String × α)) :
    assignAll d (p :: ps) = assignAll (dictInsert d p.1 p.2) ps := rfl

theorem assignAll_concat {α : Type u} (d : Dict α) (ps : List (String × α))
    (q : String × α) :
    assignAll d (ps ++ [q]) = dictInsert (assignAll d ps) q.1 q.2 := by
  simp [assignAll]

/-- What a sequence of `d[k] = v` assignments leaves under a key `k`: the value
of the last assignment to `k` when there is one, the original binding (or
absence) otherwise — last-write-wins. -/
theorem dictLookup_assignAll {α : Type u} (d : Dict α) (ps : List (String × α))
    (k : String) :
    dictLookup (assignAll d ps) k =
      ((ps.filter (fun q => q.1 == k)).getLast?).elim (dictLookup d k)
        (fun q => Except.ok q.2) := by
  induction ps using List.reverseRecOn with
  | nil => rfl
  | append_singleton ps q ih =>
    rw [assignAll_concat]
    by_cases hq : q.1 = k
    · rw [hq, dictLookup_dictInsert_self]
      have hfil : (ps ++ [q]).filter (fun r => r.1 == k) =
          ps.filter (fun r => r.1 == k) ++ [q] := by
        rw [List.filter_append]
        simp [hq]
      rw [hfil]
      simp
    · rw [dictLookup_dictInsert_ne _ _ _ _ (fun he => hq he.symm)]
      have hfil : (ps ++ [q]).filter (fun r => r.1 == k) =
          ps.filter (fun r => r.1 == k) := by
        rw [List.filter_append]
        simp [hq]
      rw [hfil, ih]

theorem mem_dictKeys_assignAll_of_mem {α : Type u} {d : Dict α} {k : String}
    (ps : List (String × α)) (h : k ∈ dictKeys d) : k ∈ dictKeys (assignAll d ps) := by
  induction ps generalizing d with
  | nil => exact h
  | cons p ps ih =>
    rw [assignAll_cons]
    exact ih (mem_dictKeys_dictInsert_of_mem p.1 p.2 h)

theorem mem_dictKeys_assignAll {α : Type u} (d : Dict α) {ps : List (String × α)}
    {p : String × α} (hp : p ∈ ps) : p.1 ∈ dictKeys (assignAll d ps) := by
  induction ps generalizing d with
  | nil => cases hp
  | cons q ps ih =>
    rw [assignAll_cons]
    rcases List.mem_cons.1 hp with h | h
    · subst h
      exact mem_dictKeys_assignAll_of_mem ps (mem_dictKeys_dictInsert_self d p.1 p.2)
    · exact ih _ h

theorem dictKeys_assignAll_of_forall_mem {α : Type u} {d : Dict α}
    {ps : List (String × α)} (h : ∀ p ∈ ps, p.1 ∈ dictKeys d) :
    dictKeys (assignAll d ps) = dictKeys d := by
  induction ps generalizing d with
  | nil => rfl
  | cons p ps ih =>
    rw [assignAll_cons]
    have hins : dictKeys (dictInsert d p.1 p.2) = dictKeys d :=
      dictKeys_dictInsert_of_mem p.2 (h p (List.mem_cons_self p ps))
    rw [ih, hins]
    intro q hq
    rw [hins]
    exact h q (List.mem_cons_of_mem p hq)

theorem nodup_dictKeys_assignAll {α : Type u} {d : Dict α} (ps : List (String × α))
    (h : (dictKeys d).Nodup) : (dictKeys (assignAll d ps)).Nodup := by
  induction ps generalizing d with
  | nil => exact h
  | cons p ps ih =>
    rw [assignAll_cons]
    exact ih (nodup_dictKeys_dictInsert p.1 p.2 h)

/-- Association lists with equal, duplicate-free key sequences and equal
lookups are equal. -/
theorem dict_eq_of_dictKeys_eq {α : Type u} :
    ∀ (d1 d2 : Dict α), dictKeys d1 = dictKeys d2 → (dictKeys d1).Nodup →
      (∀ k, dictLookup d1 k = dictLookup d2 k) → d1 = d2 := by
  intro d1
  induction d1 with
  | nil =>
    intro d2 hk _ _
    cases d2 with
    | nil => rfl
    | cons q t2 => simp [dictKeys] at hk
  | cons p t1 ih =>
    intro d2 hk hnd hl
    cases d2 with
    | nil => simp [dictKeys] at hk
    | cons q t2 =>
      simp only [dictKeys, List.map_cons, List.cons.injEq] at hk
      obtain ⟨hkey, htail⟩ := hk
      have hval : p.2 = q.2 := by
        have := hl p.1
        rw [dictLookup_cons, dictLookup_cons, if_pos rfl, if_pos hkey.symm] at this
        exact Except.ok.inj this
      have hnotmem : ¬ p.1 ∈ dictKeys t1 := by
        simp only [dictKeys] at hnd ⊢
        exact (List.nodup_cons.1 hnd).1
      have hnotmem2 : ¬ p.1 ∈ dictKeys t2 := by
        rw [dictKeys] at hnotmem ⊢
        rw [← htail]
        exact hnotmem
      have htl : ∀ k, dictLookup t1 k = dictLookup t2 k := by
        intro k
        by_cases hkk : k = p.1
        · subst hkk
          rw [dictLookup_of_not_mem hnotmem, dictLookup_of_not_mem hnotmem2]
        · have := hl k
          rw [dictLookup_cons, dictLookup_cons,
            if_neg (fun he => hkk he.symm),
            if_neg (fun he => hkk (hkey ▸ he.symm))] at this
          exact this
      have := ih t2 htail (List.nodup_cons.1 (by simpa [dictKeys] using hnd)).2 htl
      cases p
      cases q
      simp only at hkey hval
      rw [hkey, hval, this]

/-- Re-running a sequence of assignments leaves the dictionary unchanged:
every key is already present with its last-assigned value. -/
theorem assignAll_idem {α : Type u} (d : Dict α) (ps : List (String × α))
    (hnd : (dictKeys d).Nodup) :
    assignAll (assignAll d ps) ps = assignAll d ps := by
  have hkeys : dictKeys (assignAll (assignAll d ps) ps) = dictKeys (assignAll d ps) :=
    dictKeys_assignAll_of_forall_mem (fun p hp => mem_dictKeys_assignAll d hp)
  apply dict_eq_of_dictKeys_eq _ _ hkeys
  · rw [hkeys]
    exact nodup_dictKeys_assignAll ps hnd
  · intro k
    rw [dictLookup_assignAll, dictLookup_assignAll]
    rcases hlast : (ps.filter (fun q => q.1 == k)).getLast? with _ | q <;>
      rw [hlast] <;> rfl

/-! ### Composed metric keys and the write loop -/

theorem composed_key_inj {p a b : String} (h : p ++ "_" ++ a = p ++ "_" ++ b) :
    a = b := by
  have h2 := congrArg String.data h
  simp [String.data_append] at h2
  exact String.ext h2

theorem zipWith_pairs_eq {α : Type u} (pfx : String) (args : List String) :
    ∀ (ms : List (MetricValue α)) (vs : List α), args.length = ms.length →
      List.zipWith (fun (p : String × MetricValue α) v => (pfx ++ "_" ++ p.1, v))
        (args.zip ms) vs =
      List.zipWith (fun a v => (pfx ++ "_" ++ a, v)) args vs := by
  induction args with
  | nil =>
    intro ms vs _
    simp
  | cons a args ih =>
    intro ms vs h
    cases ms with
    | nil => simp at h
    | cons m ms =>
      cases vs with
      | nil => simp
      | cons v vs =>
        simp only [List.zip_cons_cons, List.zipWith_cons_cons, List.cons.injEq]
        exact ⟨trivial, ih ms vs (by simpa using h)⟩

theorem filter_composed_nil {α : Type u} (pfx a : String) :
    ∀ (args : List String) (vs : List α), ¬ a ∈ args →
      (List.zipWith (fun x v => (pfx ++ "_" ++ x, v)) args vs).filter
        (fun q => q.1 == pfx ++ "_" ++ a) = [] := by
  intro args
  induction args with
  | nil =>
    intro vs _
    simp
  | cons x args ih =>
    intro vs ha
    cases vs with
    | nil => simp
    | cons v vs =>
      simp only [List.zipWith_cons_cons, List.filter_cons]
      have hne : ¬ (pfx ++ "_" ++ x == pfx ++ "_" ++ a) = true := by
        intro hb
        have hx : x = a := composed_key_inj (by simpa using hb)
        exact ha (hx ▸ List.mem_cons_self x args)
      rw [if_neg hne]
      exact ih vs (fun hm => ha (List.mem_cons_of_mem x hm))

theorem filter_composed_singleton {α : Type u} (pfx : String) :
    ∀ (args : List String) (vs : List α) (a : String) (v : α), args.Nodup →
      (a, v) ∈ args.zip vs →
      (List.zipWith (fun x w => (pfx ++ "_" ++ x, w)) args vs).filter
        (fun q => q.1 == pfx ++ "_" ++ a) = [(pfx ++ "_" ++ a, v)] := by
  intro args
  induction args with
  | nil =>
    intro vs a v _ hm
    simp at hm
  | cons x args ih =>
    intro vs a v hnd hm
    cases vs with
    | nil => simp at hm
    | cons w vs =>
      rw [List.zip_cons_cons] at hm
      simp only [List.zipWith_cons_cons, List.filter_cons]
      rcases List.mem_cons.1 hm with heq | hmem
      · obtain ⟨ha, hv⟩ := Prod.ext_iff.1 heq
        subst ha
        subst hv
        rw [if_pos (by simp)]
        rw [filter_composed_nil pfx a args vs (List.nodup_cons.1 hnd).1]
      · have hax : ¬ a = x := by
          have ha : a ∈ args := (List.of_mem_zip hmem).1
          have hx : ¬ x ∈ args := (List.nodup_cons.1 hnd).1
          exact fun he => hx (he ▸ ha)
        have hne : ¬ (pfx ++ "_" ++ x == pfx ++ "_" ++ a) = true := by
          intro hb
          exact hax (composed_key_inj (by simpa using hb)).symm
        rw [if_neg hne]
        exact ih vs a v (List.nodup_cons.1 hnd).2 hmem

theorem writeMetrics_ok {α : Type u} (pfx : String) {ps : List (String × MetricValue α)}
    {vs : List α}
    (hv : List.Forall₂ (fun p v => UtilsFactory.get_val_from_metric p.2 = Except.ok v) ps vs)
    (s : RunState α) :
    writeMetrics pfx ps s =
      (Except.ok (),
        { s with
            batch_metrics := assignAll s.batch_metrics
              (List.zipWith (fun p v => (pfx ++ "_" ++ p.1, v)) ps vs) }) := by
  induction hv generalizing s with
  | nil => rfl
  | @cons p v ps vs hpv htail ih =>
    obtain ⟨arg, m⟩ := p
    simp only at hpv
    simp only [writeMetrics, hpv, List.zipWith_cons_cons, assignAll_cons]
    exact ih _

theorem writeMetrics_state_input {α : Type u} (pfx : String) :
    ∀ (ps : List (String × MetricValue α)) (s : RunState α),
      (writeMetrics pfx ps s).2.input = s.input := by
  intro ps
  induction ps with
  | nil =>
    intro s
    rfl
  | cons p ps ih =>
    intro s
    obtain ⟨arg, m⟩ := p
    simp only [writeMetrics]
    cases hm : UtilsFactory.get_val_from_metric m with
    | error e => rfl
    | ok v => exact ih _

theorem writeMetrics_state_output {α : Type u} (pfx : String) :
    ∀ (ps : List (String × MetricValue α)) (s : RunState α),
      (writeMetrics pfx ps s).2.output = s.output := by
  intro ps
  induction ps with
  | nil =>
    intro s
    rfl
  | cons p ps ih =>
    intro s
    obtain ⟨arg, m⟩ := p
    simp only [writeMetrics]
    cases hm : UtilsFactory.get_val_from_metric m with
    | error e => rfl
    | ok v => exact ih _

theorem writeMetrics_frame {α : Type u} (pfx : String) :
    ∀ (ps : List (String × MetricValue α)) (s : RunState α) (k : String),
      (∀ p ∈ ps, ¬ k = pfx ++ "_" ++ p.1) →
      dictLookup (writeMetrics pfx ps s).2.batch_metrics k =
        dictLookup s.batch_metrics k := by
  intro ps
  induction ps with
  | nil =>
    intro s k _
    rfl
  | cons p ps ih =>
    intro s k hk
    obtain ⟨arg, m⟩ := p
    simp only [writeMetrics]
    cases hm : UtilsFactory.get_val_from_metric m with
    | error e => rfl
    | ok v =>
      rw [ih _ k (fun q hq => hk q (List.mem_cons_of_mem _ hq))]
      exact dictLookup_dictInsert_ne _ _ _ _ (hk (arg, m) (List.mem_cons_self _ _))

theorem writeMetrics_ok_inv {α : Type u} (pfx : String) :
    ∀ (ps : List (String × MetricValue α)) (s : RunState α),
      (writeMetrics pfx ps s).1 = Except.ok () →
      ∃ vs, List.Forall₂
        (fun p v => UtilsFactory.get_val_from_metric p.2 = Except.ok v) ps vs := by
  intro ps
  induction ps with
  | nil =>
    intro s _
    exact ⟨[], List.Forall₂.nil⟩
  | cons p ps ih =>
    intro s h
    obtain ⟨arg, m⟩ := p
    simp only [writeMetrics] at h
    cases hm : UtilsFactory.get_val_from_metric m with
    | error e =>
      rw [hm] at h
      simp at h
    | ok v =>
      rw [hm] at h
      obtain ⟨vs, hvs⟩ := ih _ h
      exact ⟨v :: vs, List.Forall₂.cons hm hvs⟩

/-! ### Unfolding and inversion lemmas for `on_batch_end` -/

theorem metric_on_batch_end_eq {α : Type u} (c : MetricCallback α)
    (s : RunState α) {outs tgts v : α}
    (ho : dictLookup s.output c.output_key = Except.ok outs)
    (hi : dictLookup s.input c.input_key = Except.ok tgts)
    (hv : UtilsFactory.get_val_from_metric (c.metric_fn tgts outs c.metric_params) =
      Except.ok v) :
    c.on_batch_end s =
      (Except.ok (),
        { s with batch_metrics := dictInsert s.batch_metrics c.pfx v }) := by
  simp only [MetricCallback.on_batch_end, ho, hi, hv]

theorem metric_on_batch_end_ok_inv {α : Type u} (c : MetricCallback α)
    (s : RunState α) (h : (c.on_batch_end s).1 = Except.ok ()) :
    ∃ outs tgts v,
      dictLookup s.output c.output_key = Except.ok outs ∧
      dictLookup s.input c.input_key = Except.ok tgts ∧
      UtilsFactory.get_val_from_metric (c.metric_fn tgts outs c.metric_params) =
        Except.ok v := by
  cases ho : dictLookup s.output c.output_key with
  | error e => simp [MetricCallback.on_batch_end, ho] at h
  | ok outs =>
    cases hi : dictLookup s.input c.input_key with
    | error e => simp [MetricCallback.on_batch_end, ho, hi] at h
    | ok tgts =>
      cases hv : UtilsFactory.get_val_from_metric (c.metric_fn tgts outs c.metric_params) with
      | error e => simp [MetricCallback.on_batch_end, ho, hi, hv] at h
      | ok v => exact ⟨outs, tgts, v, rfl, rfl, hv⟩

theorem multi_on_batch_end_eq {α : Type u} (c : MultiMetricCallback α)
    (s : RunState α) {outs tgts : α}
    (ho : dictLookup s.output c.output_key = Except.ok outs)
    (hi : dictLookup s.input c.input_key = Except.ok tgts) :
    c.on_batch_end s =
      writeMetrics c.pfx
        (c.list_args.zip (c.metric_fn tgts outs c.list_args c.metric_params)) s := by
  simp only [MultiMetricCallback.on_batch_end, ho, hi]

theorem multi_on_batch_end_ok_inv {α : Type u} (c : MultiMetricCallback α)
    (s : RunState α) (h : (c.on_batch_end s).1 = Except.ok ()) :
    ∃ outs tgts,
      dictLookup s.output c.output_key = Except.ok outs ∧
      dictLookup s.input c.input_key = Except.ok tgts := by
  cases ho : dictLookup s.output c.output_key with
  | error e => simp [MultiMetricCallback.on_batch_end, ho] at h
  | ok outs =>
    cases hi : dictLookup s.input c.input_key with
    | error e => simp [MultiMetricCallback.on_batch_end, ho, hi] at h
    | ok tgts => exact ⟨outs, tgts, rfl, rfl⟩

/-! ### Dispatch lemmas -/

theorem dispatchList_nil {α : Type u} (f : CallbackHooks α → RunState α → HookResult α)
    (s : RunState α) : dispatchList f [] s = (Except.ok (), s) := rfl

theorem dispatchList_cons {α : Type u} (f : CallbackHooks α → RunState α → HookResult α)
    (kv : String × CallbackHooks α) (rest : List (String × CallbackHooks α))
    (s : RunState α) :
    dispatchList f (kv :: rest) s =
      match f kv.2 s with
      | (Except.ok _, s1) => dispatchList f rest s1
      | (Except.error e, s1) => (Except.error e, s1) := rfl

theorem dispatchList_concat {α : Type u} (f : CallbackHooks α → RunState α → HookResult α)
    (cs : List (String × CallbackHooks α)) (kv : String × CallbackHooks α)
    (s : RunState α) :
    dispatchList f (cs ++ [kv]) s =
      match dispatchList f cs s with
      | (Except.ok _, s1) => f kv.2 s1
      | (Except.error e, s1) => (Except.error e, s1) := by
  induction cs generalizing s with
  | nil =>
    cases hfs : f kv.2 s with
    | mk r s1 =>
      cases r with
      | error e => simp [dispatchList, hfs]
      | ok u =>
        cases u
        simp [dispatchList, hfs]
  | cons kv0 cs ih =>
    cases hfs : f kv0.2 s with
    | mk r s1 =>
      cases r with
      | error e => simp [dispatchList, hfs]
      | ok u =>
        cases u
        simp only [List.cons_append, dispatchList, hfs]
        exact ih s1

/-! ### Claim theorems -/

/-- **C1.** For every Dispatcher (`CallbackCompose`) holding an ordered
collection of observers and every lifecycle hook, dispatching the hook runs
the first-inserted observer first on the given state and every later observer
on the state left by its predecessors (so each observer sees all mutations
made by the observers before it), the last-inserted observer running last; an
empty collection leaves the state untouched, and an error stops the
iteration. -/
theorem dispatch_runs_observers_in_insertion_order {α : Type u} (h : Hook) :
    (∀ (s : RunState α), CallbackCompose.run ⟨[]⟩ h s = (Except.ok (), s)) ∧
    (∀ (k : String) (o : CallbackHooks α) (rest : List (String × CallbackHooks α))
      (s : RunState α),
      CallbackCompose.run ⟨(k, o) :: rest⟩ h s =
        match o.run h s with
        | (Except.ok _, s1) => CallbackCompose.run ⟨rest⟩ h s1
        | (Except.error e, s1) => (Except.error e, s1)) ∧
    (∀ (cs : List (String × CallbackHooks α)) (k : String) (o : CallbackHooks α)
      (s : RunState α),
      CallbackCompose.run ⟨cs ++ [(k, o)]⟩ h s =
        match CallbackCompose.run ⟨cs⟩ h s with
        | (Except.ok _, s1) => o.run h s1
        | (Except.error e, s1) => (Except.error e, s1)) := by
  refine ⟨?_, ?_, ?_⟩
  · intro s
    cases h <;> rfl
  · intro k o rest s
    cases h <;> rfl
  · intro cs k o s
    cases h <;> exact dispatchList_concat _ cs (k, o) s

/-- **C7.** Every one of the ten lifecycle hooks of the default Observer base
(`Callback`) returns without error and leaves the `RunState` completely
unchanged. -/
theorem default_callback_hooks_noop {α : Type u} :
    ∀ (h : Hook) (s : RunState α),
      CallbackHooks.run Callback.base h s = (Except.ok (), s) := by
  intro h s
  cases h <;> rfl

theorem dictLookup_error_eq {α : Type u} {d : Dict α} {k : String} {e : Err}
    (h : dictLookup d k = Except.error e) : e = Err.keyMissing := by
  rw [dictLookup] at h
  cases hf : d.find? (fun p => p.1 == k) with
  | some p =>
    rw [hf] at h
    cases h
  | none =>
    rw [hf] at h
    cases h
    rfl

/-- **C2.** For every MetricObserver (`MetricCallback`) whose configured keys
are present in the RunState and whose metric value extracts to `v`,
`on_batch_end` computes the metric, reduces it to a scalar and writes it to
`state.batch_metrics` under the prefix key, overwriting any prior value under
that exact key (afterwards the lookup of the prefix yields exactly `v`). -/
theorem metric_callback_writes_extracted_value {α : Type u} (c : MetricCallback α)
    (s : RunState α) (outs tgts v : α)
    (ho : dictLookup s.output c.output_key = Except.ok outs)
    (hi : dictLookup s.input c.input_key = Except.ok tgts)
    (hv : UtilsFactory.get_val_from_metric (c.metric_fn tgts outs c.metric_params) =
      Except.ok v) :
    c.on_batch_end s =
      (Except.ok (),
        { s with batch_metrics := dictInsert s.batch_metrics c.pfx v }) ∧
    dictLookup (c.on_batch_end s).2.batch_metrics c.pfx = Except.ok v := by
  have he := metric_on_batch_end_eq c s ho hi hv
  refine ⟨he, ?_⟩
  rw [he]
  exact dictLookup_dictInsert_self _ _ _

/-- Witness for C2: with `prefix = "acc"` and a metric function constantly
returning `0.75`, `on_batch_end` overwrites the pre-existing
`batch_metrics["acc"] = 0` with `0.75`. -/
theorem metric_callback_writes_extracted_value_witness :
    accCallback.on_batch_end accState =
      (Except.ok (),
        { accState with
            batch_metrics := dictInsert accState.batch_metrics "acc" (3 / 4) }) ∧
    dictLookup (accCallback.on_batch_end accState).2.batch_metrics "acc" =
      Except.ok (3 / 4) :=
  metric_callback_writes_extracted_value accCallback accState 2 1 (3 / 4) rfl rfl rfl

/-- **C4.** If the configured output key is absent from `state.output` or the
configured input key is absent from `state.input`,
`MetricCallback.on_batch_end` fails with the key-missing error and returns the
RunState entirely unchanged — in particular `batch_metrics` is untouched
(atomicity: the failing observer has written nothing). -/
theorem metric_callback_missing_key_error {α : Type u} (c : MetricCallback α)
    (s : RunState α)
    (h : dictLookup s.output c.output_key = Except.error Err.keyMissing ∨
      dictLookup s.input c.input_key = Except.error Err.keyMissing) :
    c.on_batch_end s = (Except.error Err.keyMissing, s) := by
  rcases h with h | h
  · simp [MetricCallback.on_batch_end, h]
  · cases ho : dictLookup s.output c.output_key with
    | error e =>
      have he := dictLookup_error_eq ho
      subst he
      simp [MetricCallback.on_batch_end, ho]
    | ok outs => simp [MetricCallback.on_batch_end, ho, h]

/-- Witness for C4: on a RunState with `input = {}` and `output = {}`, the
`"acc"` MetricObserver fails with the key-missing error and the state — its
`batch_metrics` included — is unchanged. -/
theorem metric_callback_missing_key_error_witness :
    accCallback.on_batch_end emptyState = (Except.error Err.keyMissing, emptyState) :=
  metric_callback_missing_key_error accCallback emptyState (Or.inl rfl)

/-- **C10.** A `MultiMetricCallback` constructed with empty `list_args` still
reads both configured keys (a missing key fails with the key-missing error
exactly as usual), but when both keys are present it writes nothing:
`on_batch_end` returns the RunState exactly as it was. -/
theorem multi_metric_empty_list_args {α : Type u} (c : MultiMetricCallback α)
    (s : RunState α) (hargs : c.list_args = []) :
    (∀ outs tgts, dictLookup s.output c.output_key = Except.ok outs →
      dictLookup s.input c.input_key = Except.ok tgts →
      c.on_batch_end s = (Except.ok (), s)) ∧
    (dictLookup s.output c.output_key = Except.error Err.keyMissing →
      c.on_batch_end s = (Except.error Err.keyMissing, s)) ∧
    (∀ outs, dictLookup s.output c.output_key = Except.ok outs →
      dictLookup s.input c.input_key = Except.error Err.keyMissing →
      c.on_batch_end s = (Except.error Err.keyMissing, s)) := by
  refine ⟨?_, ?_, ?_⟩
  · intro outs tgts ho hi
    rw [multi_on_batch_end_eq c s ho hi, hargs]
    rfl
  · intro ho
    simp [MultiMetricCallback.on_batch_end, ho]
  · intro outs ho hi
    simp [MultiMetricCallback.on_batch_end, ho, hi]

/-- Witness for C10: the empty-`listArgs` observer leaves a populated state
untouched, and still fails with the key-missing error on an empty state. -/
theorem multi_metric_empty_list_args_witness :
    (emptyArgsCallback.on_batch_end accState = (Except.ok (), accState)) ∧
    (emptyArgsCallback.on_batch_end emptyState =
      (Except.error Err.keyMissing, emptyState)) :=
  ⟨(multi_metric_empty_list_args emptyArgsCallback accState rfl).1 2 1 rfl rfl,
   (multi_metric_empty_list_args emptyArgsCallback emptyState rfl).2.1 rfl⟩

theorem forall₂_zip_snd {α : Type u} {R : MetricValue α → α → Prop} :
    ∀ (args : List String) (ms : List (MetricValue α)) (vs : List α),
      args.length = ms.length → List.Forall₂ R ms vs →
      List.Forall₂ (fun (p : String × MetricValue α) v => R p.2 v) (args.zip ms) vs := by
  intro args
  induction args with
  | nil =>
    intro ms vs h hf
    cases ms with
    | nil =>
      cases hf
      exact List.Forall₂.nil
    | cons m ms => simp at h
  | cons a args ih =>
    intro ms vs h hf
    cases ms with
    | nil => simp at h
    | cons m ms =>
      cases hf with
      | cons hR htail =>
        exact List.Forall₂.cons hR (ih ms _ (by simpa using h) htail)

/-- **C3.** For every MultiMetricObserver whose keys are present, whose metric
function returns exactly one result per (distinct) label and whose results all
extract, `on_batch_end` succeeds, pairs each label with the result at the same
position (first label with first result — positional, not by value), writes
the extracted scalar under the composed key `prefix_arg` for each pair, and
leaves every other key of `batch_metrics` bound as before. -/
theorem multi_metric_callback_pairs_positionally {α : Type u}
    (c : MultiMetricCallback α) (s : RunState α) (outs tgts : α)
    (ms : List (MetricValue α)) (vs : List α)
    (ho : dictLookup s.output c.output_key = Except.ok outs)
    (hi : dictLookup s.input c.input_key = Except.ok tgts)
    (hm : c.metric_fn tgts outs c.list_args c.metric_params = ms)
    (hlen : c.list_args.length = ms.length)
    (hv : List.Forall₂
      (fun m v => UtilsFactory.get_val_from_metric m = Except.ok v) ms vs)
    (hnd : c.list_args.Nodup) :
    (c.on_batch_end s).1 = Except.ok () ∧
    (∀ q ∈ c.list_args.zip vs,
      dictLookup (c.on_batch_end s).2.batch_metrics (c.pfx ++ "_" ++ q.1) =
        Except.ok q.2) ∧
    (∀ k, (∀ a ∈ c.list_args, ¬ k = c.pfx ++ "_" ++ a) →
      dictLookup (c.on_batch_end s).2.batch_metrics k =
        dictLookup s.batch_metrics k) := by
  have heqw : c.on_batch_end s = writeMetrics c.pfx (c.list_args.zip ms) s := by
    rw [multi_on_batch_end_eq c s ho hi, hm]
  have hv2 := forall₂_zip_snd c.list_args ms vs hlen hv
  have hw := writeMetrics_ok c.pfx hv2 s
  rw [zipWith_pairs_eq c.pfx c.list_args ms vs hlen] at hw
  have hbm : (c.on_batch_end s).2.batch_metrics =
      assignAll s.batch_metrics
        (List.zipWith (fun a v => (c.pfx ++ "_" ++ a, v)) c.list_args vs) := by
    rw [heqw, hw]
  refine ⟨by rw [heqw, hw], ?_, ?_⟩
  · intro q hq
    obtain ⟨a, v⟩ := q
    rw [hbm, dictLookup_assignAll,
      filter_composed_singleton c.pfx c.list_args vs a v hnd hq]
    rfl
  · intro k hk
    rw [heqw]
    exact writeMetrics_frame c.pfx _ s k (fun p hp => hk p.1 (List.of_mem_zip hp).1)

/-- Witness for C3: `prefix = "p"`, `listArgs = ["a", "b"]`, metric results
`[1, 2]` — afterwards `batch_metrics` holds `p_a = 1` and `p_b = 2` and every
other key (such as the pre-existing `"acc"`) is unchanged. -/
theorem multi_metric_callback_pairs_positionally_witness :
    ((pabCallback.on_batch_end accState).1 = Except.ok ()) ∧
    (∀ q ∈ (["a", "b"] : List String).zip ([1, 2] : List ℚ),
      dictLookup (pabCallback.on_batch_end accState).2.batch_metrics
        ("p" ++ "_" ++ q.1) = Except.ok q.2) ∧
    (∀ k, (∀ a ∈ (["a", "b"] : List String), ¬ k = "p" ++ "_" ++ a) →
      dictLookup (pabCallback.on_batch_end accState).2.batch_metrics k =
        dictLookup accState.batch_metrics k) :=
  multi_metric_callback_pairs_positionally pabCallback accState 2 1
    [MetricValue.scalar 1, MetricValue.scalar 2] [1, 2] rfl rfl rfl rfl
    (List.Forall₂.cons rfl (List.Forall₂.cons rfl List.Forall₂.nil)) (by decide)

/-- **C6.** Writes of a MultiMetricObserver are last-write-wins: after a
successful `on_batch_end`, the binding of any key `k` in `batch_metrics` is
the extracted value of the **last** positional `(arg, metric)` pair whose
composed key `prefix_arg` equals `k` — so with duplicate labels the later
pair silently overwrites the earlier one, without any error — and keys
matching no pair keep their previous binding. -/
theorem multi_metric_last_write_wins {α : Type u} (c : MultiMetricCallback α)
    (s : RunState α) (outs tgts : α) (ms : List (MetricValue α)) (vs : List α)
    (ho : dictLookup s.output c.output_key = Except.ok outs)
    (hi : dictLookup s.input c.input_key = Except.ok tgts)
    (hm : c.metric_fn tgts outs c.list_args c.metric_params = ms)
    (hv : List.Forall₂ (fun (p : String × MetricValue α) v =>
      UtilsFactory.get_val_from_metric p.2 = Except.ok v) (c.list_args.zip ms) vs) :
    (c.on_batch_end s).1 = Except.ok () ∧
    ∀ k, dictLookup (c.on_batch_end s).2.batch_metrics k =
      ((List.zipWith (fun (p : String × MetricValue α) v => (c.pfx ++ "_" ++ p.1, v))
          (c.list_args.zip ms) vs).filter (fun q => q.1 == k)).getLast?.elim
        (dictLookup s.batch_metrics k) (fun q => Except.ok q.2) := by
  have heqw : c.on_batch_end s = writeMetrics c.pfx (c.list_args.zip ms) s := by
    rw [multi_on_batch_end_eq c s ho hi, hm]
  have hw := writeMetrics_ok c.pfx hv s
  have hbm : (c.on_batch_end s).2.batch_metrics =
      assignAll s.batch_metrics
        (List.zipWith (fun (p : String × MetricValue α) v => (c.pfx ++ "_" ++ p.1, v))
          (c.list_args.zip ms) vs) := by
    rw [heqw, hw]
  refine ⟨by rw [heqw, hw], ?_⟩
  intro k
  rw [hbm, dictLookup_assignAll]

/-- Witness for C6: `listArgs = ["a", "a"]`, metric results `[1, 2]` — the
call succeeds and `batch_metrics["p_a"]` ends at `2`. -/
theorem multi_metric_last_write_wins_witness :
    (dupCallback.on_batch_end accState).1 = Except.ok () ∧
    dictLookup (dupCallback.on_batch_end accState).2.batch_metrics "p_a" =
      Except.ok 2 := by
  have h := multi_metric_last_write_wins dupCallback accState 2 1
    [MetricValue.scalar 1, MetricValue.scalar 2] [1, 2] rfl rfl rfl
    (List.Forall₂.cons rfl (List.Forall₂.cons rfl List.Forall₂.nil))
  refine ⟨h.1, ?_⟩
  rw [h.2 "p_a"]
  rfl

/-- Counterexample to C5 as stated: with `listArgs = ["a", "b"]` and a metric
function returning the single-element list `[1]`, the lengths differ and are
trivially determinable, yet `on_batch_end` raises no error at all — it
returns success, having written only the first pair `p_a = 1`. -/
theorem multi_metric_no_length_check_counterexample :
    (shortCallback.list_args.length ≠
      ([MetricValue.scalar (1 : ℚ)] : List (MetricValue ℚ)).length) ∧
    shortCallback.on_batch_end accState =
      (Except.ok (),
        { accState with batch_metrics := [("acc", 0), ("p_a", 1)] }) := by
  exact ⟨by decide, rfl⟩

/-- **C5 (amended).** When the metric function's result length differs from
`len(listArgs)`, `on_batch_end` does **not** fail: the `zip` pairing silently
truncates to the shorter of the two sequences, the call succeeds, and only
the truncated pairs' composed keys are written — every key matching no
truncated pair keeps its previous binding. (The code performs no length
check; §9 of the spec records this as the original behavior.) -/
theorem multi_metric_truncates_on_length_mismatch {α : Type u}
    (c : MultiMetricCallback α) (s : RunState α) (outs tgts : α)
    (ms : List (MetricValue α)) (vs : List α)
    (ho : dictLookup s.output c.output_key = Except.ok outs)
    (hi : dictLookup s.input c.input_key = Except.ok tgts)
    (hm : c.metric_fn tgts outs c.list_args c.metric_params = ms)
    (hv : List.Forall₂ (fun (p : String × MetricValue α) v =>
      UtilsFactory.get_val_from_metric p.2 = Except.ok v) (c.list_args.zip ms) vs) :
    (c.on_batch_end s).1 = Except.ok () ∧
    (∀ k, (∀ p ∈ c.list_args.zip ms, ¬ k = c.pfx ++ "_" ++ p.1) →
      dictLookup (c.on_batch_end s).2.batch_metrics k =
        dictLookup s.batch_metrics k) := by
  have heqw : c.on_batch_end s = writeMetrics c.pfx (c.list_args.zip ms) s := by
    rw [multi_on_batch_end_eq c s ho hi, hm]
  refine ⟨by rw [heqw, writeMetrics_ok c.pfx hv s], ?_⟩
  intro k hk
  rw [heqw]
  exact writeMetrics_frame c.pfx _ s k hk

/-- Witness for the amended C5, at the two-labels/one-result observer: the
call succeeds despite the mismatch, and keys other than the single truncated
pair's `p_a` are untouched. -/
theorem multi_metric_truncates_on_length_mismatch_witness :
    (shortCallback.on_batch_end accState).1 = Except.ok () ∧
    (∀ k, (∀ p ∈ (["a", "b"] : List String).zip [MetricValue.scalar (1 : ℚ)],
        ¬ k = "p" ++ "_" ++ p.1) →
      dictLookup (shortCallback.on_batch_end accState).2.batch_metrics k =
        dictLookup accState.batch_metrics k) :=
  multi_metric_truncates_on_length_mismatch shortCallback accState 2 1
    [MetricValue.scalar 1] [1] rfl rfl rfl
    (List.Forall₂.cons rfl List.Forall₂.nil)

/-- **C9.** On every successful `on_batch_end`, the built-in observers leave
`state.input` and `state.output` unchanged and write `batch_metrics` only
under their own key(s) — the prefix for `MetricCallback`, the composed
`prefix_arg` keys for `MultiMetricCallback`; every other key keeps its
previous binding. (Metric functions are pure in this embedding, the spec's
contract that they must not mutate their arguments.) -/
theorem metric_hooks_write_only_own_keys {α : Type u} :
    (∀ (c : MetricCallback α) (s : RunState α),
      (c.on_batch_end s).1 = Except.ok () →
      (c.on_batch_end s).2.input = s.input ∧
      (c.on_batch_end s).2.output = s.output ∧
      ∀ k, ¬ k = c.pfx →
        dictLookup (c.on_batch_end s).2.batch_metrics k =
          dictLookup s.batch_metrics k) ∧
    (∀ (c : MultiMetricCallback α) (s : RunState α),
      (c.on_batch_end s).1 = Except.ok () →
      (c.on_batch_end s).2.input = s.input ∧
      (c.on_batch_end s).2.output = s.output ∧
      ∀ k, (∀ a ∈ c.list_args, ¬ k = c.pfx ++ "_" ++ a) →
        dictLookup (c.on_batch_end s).2.batch_metrics k =
          dictLookup s.batch_metrics k) := by
  constructor
  · intro c s hok
    obtain ⟨outs, tgts, v, ho, hi, hv⟩ := metric_on_batch_end_ok_inv c s hok
    have he := metric_on_batch_end_eq c s ho hi hv
    rw [he]
    exact ⟨rfl, rfl, fun k hk => dictLookup_dictInsert_ne _ _ _ _ hk⟩
  · intro c s hok
    obtain ⟨outs, tgts, ho, hi⟩ := multi_on_batch_end_ok_inv c s hok
    have heqw := multi_on_batch_end_eq c s ho hi
    rw [heqw]
    refine ⟨writeMetrics_state_input _ _ _, writeMetrics_state_output _ _ _, ?_⟩
    intro k hk
    exact writeMetrics_frame c.pfx _ s k (fun p hp => hk p.1 (List.of_mem_zip hp).1)

/-- Witness for C9 at the concrete `"acc"` MetricObserver and the
`["a", "b"]` MultiMetricObserver on a populated state. -/
theorem metric_hooks_write_only_own_keys_witness :
    ((accCallback.on_batch_end accState).2.input = accState.input ∧
     (accCallback.on_batch_end accState).2.output = accState.output ∧
     ∀ k, ¬ k = "acc" →
       dictLookup (accCallback.on_batch_end accState).2.batch_metrics k =
         dictLookup accState.batch_metrics k) ∧
    ((pabCallback.on_batch_end accState).2.input = accState.input ∧
     (pabCallback.on_batch_end accState).2.output = accState.output ∧
     ∀ k, (∀ a ∈ (["a", "b"] : List String), ¬ k = "p" ++ "_" ++ a) →
       dictLookup (pabCallback.on_batch_end accState).2.batch_metrics k =
         dictLookup accState.batch_metrics k) :=
  ⟨metric_hooks_write_only_own_keys.1 accCallback accState rfl,
   metric_hooks_write_only_own_keys.2 pabCallback accState rfl⟩

/-- **C8.** Pure metric hooks are idempotent: when `on_batch_end` succeeds on
a RunState, running it again from the resulting state recomputes the same
metric values from the unchanged `input`/`output` and overwrites the same
keys with the same values, so the second call returns exactly the first
call's result (for `MultiMetricCallback` on well-formed states, i.e. those
whose `batch_metrics` holds no key twice, as every Python dict does). -/
theorem metric_hooks_idempotent {α : Type u} :
    (∀ (c : MetricCallback α) (s : RunState α),
      (c.on_batch_end s).1 = Except.ok () →
      MetricCallback.on_batch_end c (c.on_batch_end s).2 = c.on_batch_end s) ∧
    (∀ (c : MultiMetricCallback α) (s : RunState α),
      (dictKeys s.batch_metrics).Nodup →
      (c.on_batch_end s).1 = Except.ok () →
      MultiMetricCallback.on_batch_end c (c.on_batch_end s).2 = c.on_batch_end s) := by
  constructor
  · intro c s hok
    obtain ⟨outs, tgts, v, ho, hi, hv⟩ := metric_on_batch_end_ok_inv c s hok
    have he := metric_on_batch_end_eq c s ho hi hv
    rw [he]
    have he2 := metric_on_batch_end_eq c
      ({ s with batch_metrics := dictInsert s.batch_metrics c.pfx v }) ho hi hv
    rw [he2]
    simp [dictInsert_idem]
  · intro c s hnd hok
    obtain ⟨outs, tgts, ho, hi⟩ := multi_on_batch_end_ok_inv c s hok
    have heqw := multi_on_batch_end_eq c s ho hi
    obtain ⟨vs, hvs⟩ := writeMetrics_ok_inv c.pfx _ s (by rw [heqw] at hok; exact hok)
    have hw := writeMetrics_ok c.pfx hvs s
    have h1 : c.on_batch_end s =
        (Except.ok (),
          { s with
              batch_metrics := assignAll s.batch_metrics
                (List.zipWith
                  (fun (p : String × MetricValue α) v => (c.pfx ++ "_" ++ p.1, v))
                  (c.list_args.zip (c.metric_fn tgts outs c.list_args c.metric_params))
                  vs) }) := by
      rw [heqw, hw]
    rw [h1]
    have heqw2 := multi_on_batch_end_eq c
      ({ s with
          batch_metrics := assignAll s.batch_metrics
            (List.zipWith
              (fun (p : String × MetricValue α) v => (c.pfx ++ "_" ++ p.1, v))
              (c.list_args.zip (c.metric_fn tgts outs c.list_args c.metric_params))
              vs) }) ho hi
    rw [heqw2, writeMetrics_ok c.pfx hvs _]
    have hid := assignAll_idem s.batch_metrics
      (List.zipWith (fun (p : String × MetricValue α) v => (c.pfx ++ "_" ++ p.1, v))
        (c.list_args.zip (c.metric_fn tgts outs c.list_args c.metric_params)) vs) hnd
    simp [hid]

/-- Witness for C8 at the concrete `"acc"` MetricObserver and the
`["a", "b"]` MultiMetricObserver on a populated, duplicate-free state. -/
theorem metric_hooks_idempotent_witness :
    (MetricCallback.on_batch_end accCallback (accCallback.on_batch_end accState).2 =
      accCallback.on_batch_end accState) ∧
    (MultiMetricCallback.on_batch_end pabCallback
        (pabCallback.on_batch_end accState).2 =
      pabCallback.on_batch_end accState) :=
  ⟨metric_hooks_idempotent.1 accCallback accState rfl,
   metric_hooks_idempotent.2 pabCallback accState (by decide) rfl⟩

end Catalyst
